import Mathlib

/-! # Telegram Desktop: dictionary manager box and export writer interface

A verification development over two files of the repository:

* `Telegram/SourceFiles/boxes/dictionaries_manager.cpp` (namespace `Ui`),
* `Telegram/SourceFiles/export/output/export_output_abstract.h`
  (namespace `Export::Output`).

Definitions come first, theorems afterwards.
-/

namespace Ui

/-! ## `dictionaries_manager.cpp`: states of a dictionary row -/

/-- Payload of the `Loading` alternative, `MTP::DedicatedLoader::Progress`.
The structure is declared in `mtproto/dedicated_file_loader.h`; only the tag of
the alternative is inspected by the code studied here. -/
structure Progress where
  already : Int
  size : Int
deriving DecidableEq, Repr

/-- The variant `DictState = BlobState` with the alternatives the source names:
`Available{ size }`, `Ready`, `Active`, `Failed` and `Loading`. -/
inductive DictState where
  | Available (size : Int)
  | Ready
  | Active
  | Failed
  | Loading (progress : Progress)
deriving DecidableEq, Repr

/-- The test `state.is<Available>()`. -/
def DictState.isAvailable : DictState → Bool
  | .Available _ => true
  | _ => false

/-- The test `state.is<Failed>()`. -/
def DictState.isFailed : DictState → Bool
  | .Failed => true
  | _ => false

/-- The test `state.is<Loading>()`. -/
def DictState.isLoading : DictState → Bool
  | .Loading _ => true
  | _ => false

/-- `DictExists(langId)` forwards to `Spellchecker::DictionaryExists`, which is
taken as a parameter. -/
def DictExists (DictionaryExists : Int → Bool) (langId : Int) : Bool :=
  DictionaryExists langId

/-- `ComputeState(id, enabled)`; `Spellchecker::DictionaryExists` and
`Spellchecker::GetDownloadSize` are parameters. -/
def ComputeState (DictionaryExists : Int → Bool) (GetDownloadSize : Int → Int)
    (id : Int) (enabled : Bool) : DictState :=
  let result := if enabled then DictState.Active else DictState.Ready
  if DictExists DictionaryExists id then
    result
  else
    DictState.Available (GetDownloadSize id)

/-! ## `dictionaries_manager.cpp`: the list of enabled rows -/

/-- The elements `ranges::remove` moves to the front: those different from
`value`, in their original order. -/
def keptFront : List Int → Int → List Int
  | [], _ => []
  | x :: xs, value => if x = value then keptFront xs value else x :: keptFront xs value

/-- `ranges::remove(rows, value)` on a vector of `int`: the vector after the
shift (positions past the new end keep what they held) and the new end. -/
def rangesRemove (rows : List Int) (value : Int) : List Int × Nat :=
  let front := keptFront rows value
  (front ++ rows.drop front.length, front.length)

/-- `vector::erase(first, last)` with iterators given as positions. -/
def vectorErase (v : List Int) (first last : Nat) : List Int :=
  v.take first ++ v.drop last

/-- The widget `Inner` with its member `_enabledRows`. -/
structure Inner where
  _enabledRows : List Int
deriving DecidableEq, Repr

/-- `Inner::enabledRows()`. -/
def Inner.enabledRows (self : Inner) : List Int :=
  self._enabledRows

/-- The subscriber `setupContent` attaches to `row->toggledValue()` for the row
of dictionary `id`. -/
def Inner.rowToggled (id : Int) (enabled : Bool) (self : Inner) : Inner :=
  if enabled then
    { self with _enabledRows := self._enabledRows ++ [id] }
  else
    let rows := self._enabledRows
    let removed := rangesRemove rows id
    { self with _enabledRows := vectorErase removed.1 removed.2 removed.1.length }

/-- The rows after a sequence of toggle events `(id, enabled)`, oldest first. -/
def Inner.afterEvents (events : List (Int × Bool)) (self : Inner) : Inner :=
  events.foldl (fun inner e => Inner.rowToggled e.1 e.2 inner) self

/-- The values the row of `id` received, oldest first. -/
def valuesFor (id : Int) (events : List (Int × Bool)) : List Bool :=
  (events.filter (fun e => e.1 = id)).map (fun e => e.2)

/-- No two neighbours of the list are equal. -/
def noRepeat : List Bool → Bool
  | a :: b :: rest => a != b && noRepeat (b :: rest)
  | _ => true

/-- No row receives the same value twice in a row. -/
def Alternating (events : List (Int × Bool)) : Prop :=
  ∀ id ∈ events.map (fun e => e.1), noRepeat (valuesFor id events) = true

/-- The last value the row of `id` received, if any. -/
def lastValue (id : Int) (events : List (Int × Bool)) : Option Bool :=
  (valuesFor id events).getLast?


/-! ## `dictionaries_manager.cpp`: the global loader -/

/-- A pointer to a `Loader` object: the address of the object together with
the dictionary id it was constructed with (`id()` never changes). -/
structure Loader where
  address : Nat
  id : Int
deriving DecidableEq, Repr

/-- What the lambdas handed to `crl::on_main` in `Loader::unpack` call. -/
inductive Callback where
  | destroy
  | fail
deriving DecidableEq, Repr

/-- The lambda handed to `crl::async` in `Loader::unpack`, with its captures:
the weak pointer made from `this` and the path. -/
structure AsyncTask where
  weak : Loader
  path : String
deriving DecidableEq, Repr

/-- A call queued by `crl::on_main(weak, ...)`: it runs only when the guard
`weak` still points to a live object. -/
structure MainTask where
  weak : Loader
  callback : Callback
deriving DecidableEq, Repr

/-- The part of the process state the file reads and writes.

* `alive`: the `Loader` objects that exist;
* `nextAddress`: where the next allocated object is placed;
* `GlobalLoader`: the owning pointer `base::unique_qptr<Loader> GlobalLoader`;
* `GlobalLoaderValues`: the values fired on the event stream, newest first;
* `files`: the paths of the files that exist;
* `failCalls`: the loaders whose `fail()` has been invoked, newest first;
* `asyncQueue`, `mainQueue`: lambdas handed to `crl::async` and to
  `crl::on_main` that have not run yet. -/
structure World where
  alive : List Loader
  nextAddress : Nat
  GlobalLoader : Option Loader
  GlobalLoaderValues : List (Option Loader)
  files : List String
  failCalls : List Loader
  asyncQueue : List AsyncTask
  mainQueue : List MainTask
deriving DecidableEq, Repr

/-- The state at process start, with the files `files` on disk. -/
def World.init (files : List String) : World :=
  { alive := [], nextAddress := 0, GlobalLoader := none, GlobalLoaderValues := [],
    files := files, failCalls := [], asyncQueue := [], mainQueue := [] }

/-- Deleting a `Loader` object. The global slot is a guarded pointer: it reads
null as soon as the object it pointed to is gone. -/
def World.delete (w : World) (loader : Loader) : World :=
  { w with alive := w.alive.filter (fun l => l ≠ loader),
           GlobalLoader := if w.GlobalLoader = some loader then none else w.GlobalLoader }

/-- The destructor of an owning pointer `base::unique_qptr<Loader>`: the object
it owns, if any, is deleted. -/
def World.release (w : World) (owned : Option Loader) : World :=
  match owned with
  | some loader => w.delete loader
  | none => w

/-- The move assignment `GlobalLoader = std::move(loader)` of the owning
pointer, with what the right-hand side owns afterwards. When the two pointers
differ, the object held so far is deleted, the new pointer is stored and the
right-hand side is left empty. When they are equal nothing moves: the
right-hand side keeps its pointer. -/
def World.assignGlobalLoader (w : World) (loader : Option Loader) : World × Option Loader :=
  if w.GlobalLoader ≠ loader then
    ({ (w.release w.GlobalLoader) with GlobalLoader := loader }, none)
  else
    (w, loader)

/-- `SetGlobalLoader(loader)`, the parameter being taken by value: store the
pointer, fire the stored pointer on `GlobalLoaderValues`, and on return destroy
the parameter, which deletes the object it still owns. -/
def SetGlobalLoader (loader : Option Loader) (w : World) : World :=
  let assigned := w.assignGlobalLoader loader
  let fired : World :=
    { assigned.1 with
      GlobalLoaderValues := assigned.1.GlobalLoader :: assigned.1.GlobalLoaderValues }
  fired.release assigned.2

/-- `Loader::destroy()`: `Expects(GlobalLoader == this)`, then
`SetGlobalLoader(nullptr)`. A violated `Expects` terminates the process: the
result is `none`. -/
def Loader.destroy (this : Loader) (w : World) : Option World :=
  if w.GlobalLoader = some this then
    some (SetGlobalLoader none w)
  else
    none

/-- `BlobLoader::fail()`, inherited by `Loader` and defined outside the file:
its invocation is recorded. -/
def Loader.fail (this : Loader) (w : World) : World :=
  { w with failCalls := this :: w.failCalls }

/-- `base::make_unique_q<Loader>(...)` for dictionary `id`: a new object at a
fresh address. -/
def make_unique_q (id : Int) (w : World) : Loader × World :=
  let loader : Loader := { address := w.nextAddress, id := id }
  (loader, { w with alive := loader :: w.alive, nextAddress := w.nextAddress + 1 })

/-- `crl::async(task)`: the lambda runs later, off the main thread. -/
def crl_async (task : AsyncTask) (w : World) : World :=
  { w with asyncQueue := w.asyncQueue ++ [task] }

/-- `crl::on_main(weak, callback)`: the call is queued for the main thread. -/
def crl_on_main (weak : Loader) (callback : Callback) (w : World) : World :=
  { w with mainQueue := w.mainQueue ++ [{ weak := weak, callback := callback }] }

/-- `Loader::unpack(path)`: make a weak pointer to `this` and hand the lambda
to `crl::async`. -/
def Loader.unpack (this : Loader) (path : String) (w : World) : World :=
  let weak := this
  crl_async { weak := weak, path := path } w

/-- `QFile(path).remove()`; `removed` is the value the call returns, which the
caller discards: the file is gone when it is `true` and stays when it is
`false`. -/
def QFile.remove (path : String) (removed : Bool) (w : World) : World :=
  if removed then
    { w with files := w.files.filter (fun p => p ≠ path) }
  else
    w

/-- The body of the lambda `Loader::unpack` hands to `crl::async`; `unpacked`
is what `Spellchecker::UnpackDictionary(path, id())` returned and `removed`
what `QFile(path).remove()` returns when it is called. -/
def AsyncTask.run (task : AsyncTask) (unpacked removed : Bool) (w : World) : World :=
  if unpacked then
    crl_on_main task.weak Callback.destroy (QFile.remove task.path removed w)
  else
    crl_on_main task.weak Callback.fail w

/-- Delivery of a call queued by `crl::on_main(weak, ...)`: nothing happens
when the guarded object is gone, otherwise the callback runs. -/
def MainTask.run (task : MainTask) (w : World) : Option World :=
  if task.weak ∈ w.alive then
    match task.callback with
    | Callback.destroy => Loader.destroy task.weak w
    | Callback.fail => some (Loader.fail task.weak w)
  else
    some w

/-- The subscriber `AddButtonWithLoader` attaches to `button->toggledValue()`
for dictionary `id`; `state` is `buttonState->current()`. -/
def toggledHandler (id : Int) (toggled : Bool) (state : DictState) (w : World) :
    Option World :=
  if toggled && (state.isAvailable || state.isFailed) then
    let made := make_unique_q id w
    some (SetGlobalLoader (some made.1) made.2)
  else if !toggled && state.isLoading then
    match w.GlobalLoader with
    | some loader => if loader.id = id then Loader.destroy loader w else some w
    | none => some w
  else
    some w

/-- What can happen next.

* `toggled id toggled state`: the toggle subscriber of the row of `id` runs;
* `unpack loader path`: `loader->unpack(path)` on a live loader;
* `async k unpacked removed`: the pending `crl::async` lambda number `k` runs,
  `UnpackDictionary` returns `unpacked` and `QFile::remove`, if called, returns
  `removed`;
* `main k`: the pending `crl::on_main` call number `k` is delivered. -/
inductive Event where
  | toggled (id : Int) (toggled : Bool) (state : DictState)
  | unpack (loader : Loader) (path : String)
  | async (k : Nat) (unpacked : Bool) (removed : Bool)
  | main (k : Nat)
deriving DecidableEq, Repr

/-- Why an event yields no next state. -/
inductive Fault where
  | expectsViolated
  | notEnabled
deriving DecidableEq, Repr

/-- An `Expects` failure is reported as `Fault.expectsViolated`. -/
def checked : Option World → Except Fault World
  | some w => Except.ok w
  | none => Except.error Fault.expectsViolated

/-- One event. -/
def step (e : Event) (w : World) : Except Fault World :=
  match e with
  | Event.toggled id toggled state => checked (toggledHandler id toggled state w)
  | Event.unpack loader path =>
    if loader ∈ w.alive then Except.ok (Loader.unpack loader path w)
    else Except.error Fault.notEnabled
  | Event.async k unpacked removed =>
    match w.asyncQueue.get? k with
    | some task =>
      Except.ok (task.run unpacked removed { w with asyncQueue := w.asyncQueue.eraseIdx k })
    | none => Except.error Fault.notEnabled
  | Event.main k =>
    match w.mainQueue.get? k with
    | some task => checked (task.run { w with mainQueue := w.mainQueue.eraseIdx k })
    | none => Except.error Fault.notEnabled

/-- A sequence of events, oldest first. -/
def run : List Event → World → Except Fault World
  | [], w => Except.ok w
  | e :: es, w =>
    match step e w with
    | Except.ok w1 => run es w1
    | Except.error f => Except.error f

/-- The states the process can be in. -/
def Reachable (w : World) : Prop :=
  ∃ files events, run events (World.init files) = Except.ok w

/-- A direct call of one of the two functions that write the global slot. -/
inductive SlotCall where
  | SetGlobalLoader (loader : Option Loader)
  | destroy (this : Loader)
deriving DecidableEq, Repr

/-- One call; `none` when an `Expects` is violated. -/
def SlotCall.apply (c : SlotCall) (w : World) : Option World :=
  match c with
  | SlotCall.SetGlobalLoader loader => some (Ui.SetGlobalLoader loader w)
  | SlotCall.destroy this => Loader.destroy this w

/-- Every live `Loader` object is the one the global slot holds. -/
def Owned (w : World) : Prop :=
  ∀ l ∈ w.alive, w.GlobalLoader = some l

instance (events : List (Int × Bool)) : Decidable (Alternating events) :=
  inferInstanceAs (Decidable (∀ id ∈ events.map (fun (e : Int × Bool) => e.1),
    noRepeat (valuesFor id events) = true))

/-- A state of the process: the row of dictionary 1 was toggled on while the
dictionary was available for download, with the file `dict.zip` on disk. -/
def World.loading : World :=
  { alive := [⟨0, 1⟩], nextAddress := 1, GlobalLoader := some ⟨0, 1⟩,
    GlobalLoaderValues := [some ⟨0, 1⟩], files := ["dict.zip"], failCalls := [],
    asyncQueue := [], mainQueue := [] }

end Ui

namespace Export.Output

/-! ## `export_output_abstract.h`: formats and the writer interface -/

/-- The enumeration `enum class Format`. -/
inductive Format where
  | Text
  | Yaml
  | Html
  | Json
deriving DecidableEq, Repr

/-- The types named in the member declarations of `AbstractWriter`. `Settings`
and `Stats` stand for `const Settings &` and `Stats *`, the `Data::` types for
constant references. -/
inductive TypeName where
  | Result
  | QString
  | Settings
  | Stats
  | PersonalInfo
  | UserpicsInfo
  | UserpicsSlice
  | ContactsList
  | SessionsList
  | DialogsInfo
  | DialogInfo
  | MessagesSlice
deriving DecidableEq, Repr

/-- The pure virtual member functions of `AbstractWriter`, in declaration
order. -/
inductive Method where
  | start
  | writePersonal
  | writeUserpicsStart
  | writeUserpicsSlice
  | writeUserpicsEnd
  | writeContactsList
  | writeSessionsList
  | writeDialogsStart
  | writeDialogStart
  | writeDialogSlice
  | writeDialogEnd
  | writeDialogsEnd
  | writeLeftChannelsStart
  | writeLeftChannelStart
  | writeLeftChannelSlice
  | writeLeftChannelEnd
  | writeLeftChannelsEnd
  | finish
  | mainFilePath
deriving DecidableEq, Repr

/-- All member functions, in declaration order. -/
def Method.all : List Method :=
  [.start, .writePersonal, .writeUserpicsStart, .writeUserpicsSlice, .writeUserpicsEnd,
   .writeContactsList, .writeSessionsList, .writeDialogsStart, .writeDialogStart,
   .writeDialogSlice, .writeDialogEnd, .writeDialogsEnd, .writeLeftChannelsStart,
   .writeLeftChannelStart, .writeLeftChannelSlice, .writeLeftChannelEnd,
   .writeLeftChannelsEnd, .finish, .mainFilePath]

/-- The declared parameter types of each member function. -/
def Method.parameters : Method → List TypeName
  | .start => [.Settings, .Stats]
  | .writePersonal => [.PersonalInfo]
  | .writeUserpicsStart => [.UserpicsInfo]
  | .writeUserpicsSlice => [.UserpicsSlice]
  | .writeUserpicsEnd => []
  | .writeContactsList => [.ContactsList]
  | .writeSessionsList => [.SessionsList]
  | .writeDialogsStart => [.DialogsInfo]
  | .writeDialogStart => [.DialogInfo]
  | .writeDialogSlice => [.MessagesSlice]
  | .writeDialogEnd => []
  | .writeDialogsEnd => []
  | .writeLeftChannelsStart => [.DialogsInfo]
  | .writeLeftChannelStart => [.DialogInfo]
  | .writeLeftChannelSlice => [.MessagesSlice]
  | .writeLeftChannelEnd => []
  | .writeLeftChannelsEnd => []
  | .finish => []
  | .mainFilePath => []

/-- The declared return type of each member function. -/
def Method.returns : Method → TypeName
  | .start => .Result
  | .writePersonal => .Result
  | .writeUserpicsStart => .Result
  | .writeUserpicsSlice => .Result
  | .writeUserpicsEnd => .Result
  | .writeContactsList => .Result
  | .writeSessionsList => .Result
  | .writeDialogsStart => .Result
  | .writeDialogStart => .Result
  | .writeDialogSlice => .Result
  | .writeDialogEnd => .Result
  | .writeDialogsEnd => .Result
  | .writeLeftChannelsStart => .Result
  | .writeLeftChannelStart => .Result
  | .writeLeftChannelSlice => .Result
  | .writeLeftChannelEnd => .Result
  | .writeLeftChannelsEnd => .Result
  | .finish => .Result
  | .mainFilePath => .QString

/-- The dialog member functions paired with the left-channel member functions
of the corresponding name. -/
def dialogLeftChannelPairs : List (Method × Method) :=
  [(.writeDialogsStart, .writeLeftChannelsStart),
   (.writeDialogStart, .writeLeftChannelStart),
   (.writeDialogSlice, .writeLeftChannelSlice),
   (.writeDialogEnd, .writeLeftChannelEnd),
   (.writeDialogsEnd, .writeLeftChannelsEnd)]


/-! ## The writer protocol

The header declares `AbstractWriter` and `CreateWriter` without bodies: the
writers that implement the interface and the definition of `CreateWriter` are
in other files. The definitions of this section follow the specification of the
protocol engine. -/

/-- Modelled from the spec: the cause carried by a failed `Result` ("I/O
failure, out-of-space, encoding invariant violation"); the type `Result` is
only declared in the header. -/
inductive Cause where
  | ioFailure
  | outOfSpace
  | encodingInvariant
deriving DecidableEq, Repr

/-- Modelled from the spec: `Result` is "a discriminated outcome: `Ok` (no
payload) or `Failed{cause, path}`"; the type is only declared in the header. -/
inductive Result where
  | Ok
  | Failed (cause : Cause) (path : String)
deriving DecidableEq, Repr

/-- Modelled from the spec: the sections that are opened by a `Start` call and
closed by an `End` call (Userpics, Dialogs, one per dialog, LeftChannels, one
per left channel). The header does not name them. -/
inductive OpenSection where
  | Userpics
  | Dialogs
  | Dialog
  | LeftChannels
  | LeftChannel
deriving DecidableEq, Repr

/-- Modelled from the spec: the calls of the operation table that return a
`Result`, without their payloads, which the engine treats as opaque. They are
the member functions of `AbstractWriter` other than `mainFilePath`. -/
inductive Call where
  | start
  | writePersonal
  | writeUserpicsStart
  | writeUserpicsSlice
  | writeUserpicsEnd
  | writeContactsList
  | writeSessionsList
  | writeDialogsStart
  | writeDialogStart
  | writeDialogSlice
  | writeDialogEnd
  | writeDialogsEnd
  | writeLeftChannelsStart
  | writeLeftChannelStart
  | writeLeftChannelSlice
  | writeLeftChannelEnd
  | writeLeftChannelsEnd
  | finish
deriving DecidableEq, Repr

/-- Modelled from the spec: the top-level steps of the operation table between
`start` and `finish`, which the header does not name: the profile block and the
five top-level sections. -/
inductive TopLevel where
  | personal
  | userpics
  | contacts
  | sessions
  | dialogs
  | leftChannels
deriving DecidableEq, Repr

/-- Modelled from the spec: the place of a top-level step in the fixed order of
the operation table ("sections may only be opened, filled, and closed in a
fixed order, with no reordering or reentry"). -/
def TopLevel.rank : TopLevel → Nat
  | .personal => 1
  | .userpics => 2
  | .contacts => 3
  | .sessions => 4
  | .dialogs => 5
  | .leftChannels => 6

/-- Modelled from the spec: the Writer, "the protocol engine", whose
implementations are not in the header. It owns one encoder (`encoder` names its
format) and enforces the state machine:

* `started`: `start` has succeeded;
* `finished`: `finish` has succeeded;
* `reached`: the rank of the last top-level step begun, 0 when there is none;
* `openSections`: the sections that are open, innermost first;
* `output`: the fragments appended so far, one per successful call. -/
structure Writer where
  encoder : Format
  started : Bool
  finished : Bool
  reached : Nat
  openSections : List OpenSection
  output : List Call
deriving DecidableEq, Repr

/-- Modelled from the spec: a writer on which nothing has been called. -/
def Writer.fresh (format : Format) : Writer :=
  { encoder := format, started := false, finished := false, reached := 0,
    openSections := [], output := [] }

/-- Modelled from the spec: the Writer Factory `CreateWriter`, declared in the
header and defined elsewhere: "given a requested format, constructs the
matching Writer". The `std::unique_ptr` it returns is `none` when empty. -/
def CreateWriter (format : Format) : Option Writer :=
  some (Writer.fresh format)

/-- Modelled from the spec: the Precondition column of the operation table,
whose enforcement is in the writers, not in the header.

* `start`: first call;
* `writePersonal`: after start, before any section start, once;
* a top-level `Start`, `writeContactsList` (single call), `writeSessionsList`
  (single call): no section is open (sibling sections never interleave) and
  the step comes later in the fixed order than every top-level step begun so
  far (no reordering, no reentry);
* `Slice` and `End` of a section: that section is the innermost open one;
* `writeDialogStart`: the Dialogs section is open and no dialog is open;
  `writeDialogsEnd`: the same; left channels likewise;
* `finish`: all sections closed; nothing is accepted after it. -/
def Writer.permits (w : Writer) (c : Call) : Bool :=
  match c with
  | .start => !w.started
  | .writePersonal =>
    w.started && !w.finished && w.openSections.isEmpty
      && decide (w.reached < TopLevel.personal.rank)
  | .writeUserpicsStart =>
    w.started && !w.finished && w.openSections.isEmpty
      && decide (w.reached < TopLevel.userpics.rank)
  | .writeUserpicsSlice =>
    w.started && !w.finished && w.openSections.head? == some OpenSection.Userpics
  | .writeUserpicsEnd =>
    w.started && !w.finished && w.openSections.head? == some OpenSection.Userpics
  | .writeContactsList =>
    w.started && !w.finished && w.openSections.isEmpty
      && decide (w.reached < TopLevel.contacts.rank)
  | .writeSessionsList =>
    w.started && !w.finished && w.openSections.isEmpty
      && decide (w.reached < TopLevel.sessions.rank)
  | .writeDialogsStart =>
    w.started && !w.finished && w.openSections.isEmpty
      && decide (w.reached < TopLevel.dialogs.rank)
  | .writeDialogStart =>
    w.started && !w.finished && w.openSections.head? == some OpenSection.Dialogs
  | .writeDialogSlice =>
    w.started && !w.finished && w.openSections.head? == some OpenSection.Dialog
  | .writeDialogEnd =>
    w.started && !w.finished && w.openSections.head? == some OpenSection.Dialog
  | .writeDialogsEnd =>
    w.started && !w.finished && w.openSections.head? == some OpenSection.Dialogs
  | .writeLeftChannelsStart =>
    w.started && !w.finished && w.openSections.isEmpty
      && decide (w.reached < TopLevel.leftChannels.rank)
  | .writeLeftChannelStart =>
    w.started && !w.finished && w.openSections.head? == some OpenSection.LeftChannels
  | .writeLeftChannelSlice =>
    w.started && !w.finished && w.openSections.head? == some OpenSection.LeftChannel
  | .writeLeftChannelEnd =>
    w.started && !w.finished && w.openSections.head? == some OpenSection.LeftChannel
  | .writeLeftChannelsEnd =>
    w.started && !w.finished && w.openSections.head? == some OpenSection.LeftChannels
  | .finish => w.started && !w.finished && w.openSections.isEmpty

/-- Modelled from the spec: the Effect column of the operation table on the
state machine; the writers that implement it are not in the header. A top-level
step records its rank, a `Start` opens its section, an `End` closes the
innermost one, and every call appends its fragment to the output. -/
def Writer.advance (w : Writer) (c : Call) : Writer :=
  let w1 : Writer := { w with output := w.output ++ [c] }
  match c with
  | .start => { w1 with started := true }
  | .writePersonal => { w1 with reached := TopLevel.personal.rank }
  | .writeUserpicsStart =>
    { w1 with reached := TopLevel.userpics.rank,
              openSections := OpenSection.Userpics :: w.openSections }
  | .writeUserpicsSlice => w1
  | .writeUserpicsEnd => { w1 with openSections := w.openSections.tail }
  | .writeContactsList => { w1 with reached := TopLevel.contacts.rank }
  | .writeSessionsList => { w1 with reached := TopLevel.sessions.rank }
  | .writeDialogsStart =>
    { w1 with reached := TopLevel.dialogs.rank,
              openSections := OpenSection.Dialogs :: w.openSections }
  | .writeDialogStart => { w1 with openSections := OpenSection.Dialog :: w.openSections }
  | .writeDialogSlice => w1
  | .writeDialogEnd => { w1 with openSections := w.openSections.tail }
  | .writeDialogsEnd => { w1 with openSections := w.openSections.tail }
  | .writeLeftChannelsStart =>
    { w1 with reached := TopLevel.leftChannels.rank,
              openSections := OpenSection.LeftChannels :: w.openSections }
  | .writeLeftChannelStart =>
    { w1 with openSections := OpenSection.LeftChannel :: w.openSections }
  | .writeLeftChannelSlice => w1
  | .writeLeftChannelEnd => { w1 with openSections := w.openSections.tail }
  | .writeLeftChannelsEnd => { w1 with openSections := w.openSections.tail }
  | .finish => { w1 with finished := true }

/-- Modelled from the spec: what a call yields. A protocol violation is
rejected (fail fast) and is not a `Result`; otherwise the call returns a
`Result`. -/
inductive Outcome where
  | rejected
  | returned (result : Result)
deriving DecidableEq, Repr

/-- Modelled from the spec: one call on a writer, the writers themselves being
outside the header. `io` is the failure of the underlying stream during the
call, if any. A call that violates its precondition is rejected and the writer
is left as it was; a call whose write fails returns `Failed` (what the writer
holds afterwards is left open by the spec, the state is kept); otherwise the
call returns `Ok` and the state machine advances. -/
def Writer.call (w : Writer) (c : Call) (io : Option (Cause × String)) : Outcome × Writer :=
  if w.permits c then
    match io with
    | some failure => (Outcome.returned (Result.Failed failure.1 failure.2), w)
    | none => (Outcome.returned Result.Ok, w.advance c)
  else
    (Outcome.rejected, w)

/-- Modelled from the spec: a sequence of calls without I/O failure, oldest
first, with the outcome of each call. -/
def Writer.callAll : Writer → List Call → List Outcome × Writer
  | w, [] => ([], w)
  | w, c :: cs =>
    let r := w.call c none
    let rest := Writer.callAll r.2 cs
    (r.1 :: rest.1, rest.2)

/-- Modelled from the spec: a section written as `Start`, any number of
`Slice` calls, `End`. -/
def sliced (opening slice closing : Call) (slices : Nat) : List Call :=
  opening :: (List.replicate slices slice ++ [closing])

/-- Modelled from the spec: one top-level section of a call sequence that
obeys the ordering protocol. `dialogs` and `leftChannels` list, for each nested
dialog, its number of slices. -/
inductive Block where
  | userpics (slices : Nat)
  | contacts
  | sessions
  | dialogs (dialogs : List Nat)
  | leftChannels (channels : List Nat)
deriving DecidableEq, Repr

/-- Modelled from the spec: what the driver calls for the dialogs of one outer
section, each as `Start`, its slices, `End`. -/
def nested (opening slice closing : Call) : List Nat → List Call
  | [] => []
  | n :: rest => sliced opening slice closing n ++ nested opening slice closing rest

/-- Modelled from the spec: the calls of one top-level section. -/
def Block.calls : Block → List Call
  | .userpics n => sliced .writeUserpicsStart .writeUserpicsSlice .writeUserpicsEnd n
  | .contacts => [.writeContactsList]
  | .sessions => [.writeSessionsList]
  | .dialogs ds =>
    .writeDialogsStart ::
      (nested .writeDialogStart .writeDialogSlice .writeDialogEnd ds ++ [.writeDialogsEnd])
  | .leftChannels cs =>
    .writeLeftChannelsStart ::
      (nested .writeLeftChannelStart .writeLeftChannelSlice .writeLeftChannelEnd cs
        ++ [.writeLeftChannelsEnd])

/-- Modelled from the spec: the top-level step a section of a call sequence
belongs to. -/
def Block.kind : Block → TopLevel
  | .userpics _ => TopLevel.userpics
  | .contacts => TopLevel.contacts
  | .sessions => TopLevel.sessions
  | .dialogs _ => TopLevel.dialogs
  | .leftChannels _ => TopLevel.leftChannels

/-- Every number of the list is smaller than all the numbers after it. -/
def ascending : List Nat → Bool
  | [] => true
  | a :: rest => rest.all (fun b => decide (a < b)) && ascending rest

/-- Modelled from the spec: the top-level sections follow the fixed order of
the operation table, each at most once (no reordering, no reentry, a single
call for the contact list and for the session list). -/
def inOrder (blocks : List Block) : Bool :=
  ascending (blocks.map (fun b => b.kind.rank))

/-- Modelled from the spec: the calls of a list of top-level sections. -/
def blocksCalls : List Block → List Call
  | [] => []
  | b :: bs => b.calls ++ blocksCalls bs

/-- Modelled from the spec: a call sequence that obeys the ordering protocol of
the operation table, given top-level sections that are `inOrder`: `start`
first, then `writePersonal` (when `personal` holds) before any section, then
the top-level sections one after the other (each `Start` before its slices and
its `End`, dialogs nested inside Dialogs), `finish` last with all sections
closed. -/
def protocolCalls (personal : Bool) (blocks : List Block) : List Call :=
  Call.start ::
    ((if personal then [Call.writePersonal] else []) ++ (blocksCalls blocks ++ [Call.finish]))

/-- Modelled from the spec: a writer after `start` and `writeDialogsStart`, with
the Dialogs section open and no dialog open. -/
def Writer.dialogsOpen : Writer :=
  { encoder := Format.Json, started := true, finished := false,
    reached := TopLevel.dialogs.rank, openSections := [OpenSection.Dialogs],
    output := [Call.start, Call.writeDialogsStart] }

end Export.Output

namespace Export.Output

/-- The calls before the section that is being written: `start`, the
`writePersonal` call if any, and the sections that are complete. -/
def writtenSoFar (personal : Bool) (blocks : List Block) : List Call :=
  Call.start :: ((if personal then [Call.writePersonal] else []) ++ blocksCalls blocks)

/-- The form of the output of a writer, by the state of its state machine:
`p` tells whether `writePersonal` was called, `bs` are the complete top-level
sections, `ds` the complete dialogs of the open outer section and `n` the
number of slices of the innermost open section. -/
inductive Shape : Writer → Prop where
  | fresh (w : Writer) (hs : w.started = false) (hf : w.finished = false)
      (hr : w.reached = 0) (ho : w.openSections = []) (hout : w.output = []) : Shape w
  | idle (w : Writer) (p : Bool) (bs : List Block) (hs : w.started = true)
      (hf : w.finished = false) (hp : p = true → 1 ≤ w.reached)
      (hord : inOrder bs = true) (hle : ∀ b ∈ bs, b.kind.rank ≤ w.reached)
      (ho : w.openSections = []) (hout : w.output = writtenSoFar p bs) : Shape w
  | userpics (w : Writer) (p : Bool) (bs : List Block) (n : Nat) (hs : w.started = true)
      (hf : w.finished = false) (hr : w.reached = TopLevel.userpics.rank)
      (hord : inOrder bs = true) (hlt : ∀ b ∈ bs, b.kind.rank < TopLevel.userpics.rank)
      (ho : w.openSections = [OpenSection.Userpics])
      (hout : w.output = writtenSoFar p bs ++
        (Call.writeUserpicsStart :: List.replicate n Call.writeUserpicsSlice)) : Shape w
  | dialogs (w : Writer) (p : Bool) (bs : List Block) (ds : List Nat) (hs : w.started = true)
      (hf : w.finished = false) (hr : w.reached = TopLevel.dialogs.rank)
      (hord : inOrder bs = true) (hlt : ∀ b ∈ bs, b.kind.rank < TopLevel.dialogs.rank)
      (ho : w.openSections = [OpenSection.Dialogs])
      (hout : w.output = writtenSoFar p bs ++
        (Call.writeDialogsStart ::
          nested Call.writeDialogStart Call.writeDialogSlice Call.writeDialogEnd ds)) : Shape w
  | dialog (w : Writer) (p : Bool) (bs : List Block) (ds : List Nat) (n : Nat)
      (hs : w.started = true) (hf : w.finished = false)
      (hr : w.reached = TopLevel.dialogs.rank)
      (hord : inOrder bs = true) (hlt : ∀ b ∈ bs, b.kind.rank < TopLevel.dialogs.rank)
      (ho : w.openSections = [OpenSection.Dialog, OpenSection.Dialogs])
      (hout : w.output = writtenSoFar p bs ++
        (Call.writeDialogsStart ::
          (nested Call.writeDialogStart Call.writeDialogSlice Call.writeDialogEnd ds ++
            (Call.writeDialogStart :: List.replicate n Call.writeDialogSlice)))) : Shape w
  | leftChannels (w : Writer) (p : Bool) (bs : List Block) (ds : List Nat)
      (hs : w.started = true) (hf : w.finished = false)
      (hr : w.reached = TopLevel.leftChannels.rank)
      (hord : inOrder bs = true) (hlt : ∀ b ∈ bs, b.kind.rank < TopLevel.leftChannels.rank)
      (ho : w.openSections = [OpenSection.LeftChannels])
      (hout : w.output = writtenSoFar p bs ++
        (Call.writeLeftChannelsStart ::
          nested Call.writeLeftChannelStart Call.writeLeftChannelSlice
            Call.writeLeftChannelEnd ds)) : Shape w
  | leftChannel (w : Writer) (p : Bool) (bs : List Block) (ds : List Nat) (n : Nat)
      (hs : w.started = true) (hf : w.finished = false)
      (hr : w.reached = TopLevel.leftChannels.rank)
      (hord : inOrder bs = true) (hlt : ∀ b ∈ bs, b.kind.rank < TopLevel.leftChannels.rank)
      (ho : w.openSections = [OpenSection.LeftChannel, OpenSection.LeftChannels])
      (hout : w.output = writtenSoFar p bs ++
        (Call.writeLeftChannelsStart ::
          (nested Call.writeLeftChannelStart Call.writeLeftChannelSlice
              Call.writeLeftChannelEnd ds ++
            (Call.writeLeftChannelStart :: List.replicate n Call.writeLeftChannelSlice)))) :
      Shape w
  | done (w : Writer) (p : Bool) (bs : List Block) (hs : w.started = true)
      (hf : w.finished = true) (hord : inOrder bs = true)
      (hout : w.output = protocolCalls p bs) : Shape w

end Export.Output

/-! # Theorems -/

namespace Ui

/-- C8: `ComputeState(id, enabled)` is `Active` when the dictionary exists and
`enabled` holds, `Ready` when it exists and `enabled` does not hold, and
`Available` with the download size of `id` when it does not exist; it is never
`Loading` nor `Failed`. -/
theorem ComputeState_spec (DictionaryExists : Int → Bool) (GetDownloadSize : Int → Int)
    (id : Int) (enabled : Bool) :
    (ComputeState DictionaryExists GetDownloadSize id enabled =
      match DictionaryExists id, enabled with
      | true, true => DictState.Active
      | true, false => DictState.Ready
      | false, _ => DictState.Available (GetDownloadSize id)) ∧
    (∀ p, ComputeState DictionaryExists GetDownloadSize id enabled ≠ DictState.Loading p) ∧
    ComputeState DictionaryExists GetDownloadSize id enabled ≠ DictState.Failed := by
  unfold ComputeState DictExists
  cases h : DictionaryExists id <;> cases enabled <;> simp

theorem keptFront_eq_filter (rows : List Int) (value : Int) :
    keptFront rows value = rows.filter (fun x => x ≠ value) := by
  induction rows with
  | nil => rfl
  | cons x xs ih =>
    by_cases h : x = value
    · simp [keptFront, h, ih]
    · simp [keptFront, h, ih]

theorem rowToggled_off_rows (id : Int) (self : Inner) :
    (Inner.rowToggled id false self)._enabledRows
      = self._enabledRows.filter (fun x => x ≠ id) := by
  have herase : ∀ a b : List Int, vectorErase (a ++ b) a.length (a ++ b).length = a := by
    intro a b
    unfold vectorErase
    rw [List.drop_length, List.append_nil, List.take_left]
  simp only [Inner.rowToggled, rangesRemove, Bool.false_eq_true, if_false, herase,
    keptFront_eq_filter]

theorem rowToggled_on_rows (id : Int) (self : Inner) :
    (Inner.rowToggled id true self)._enabledRows = self._enabledRows ++ [id] := by
  simp [Inner.rowToggled]

theorem afterEvents_append (es : List (Int × Bool)) (e : Int × Bool) (self : Inner) :
    Inner.afterEvents (es ++ [e]) self = Inner.rowToggled e.1 e.2 (Inner.afterEvents es self) := by
  simp [Inner.afterEvents, List.foldl_append]

theorem valuesFor_append (id : Int) (es : List (Int × Bool)) (e : Int × Bool) :
    valuesFor id (es ++ [e]) = valuesFor id es ++ (if e.1 = id then [e.2] else []) := by
  unfold valuesFor
  by_cases h : e.1 = id <;> simp [List.filter_append, h]

theorem noRepeat_iff_chain (l : List Bool) :
    noRepeat l = true ↔ List.Chain' (fun a b => a ≠ b) l := by
  induction l with
  | nil => simp [noRepeat]
  | cons a rest ih =>
    cases rest with
    | nil => simp [noRepeat]
    | cons b rest =>
      rw [List.chain'_cons, ← ih]
      simp [noRepeat]

theorem Alternating_iff (es : List (Int × Bool)) :
    Alternating es ↔ ∀ id, List.Chain' (fun a b => a ≠ b) (valuesFor id es) := by
  constructor
  · intro h id
    by_cases hid : id ∈ es.map (fun e => e.1)
    · exact (noRepeat_iff_chain _).1 (h id hid)
    · have : valuesFor id es = [] := by
        unfold valuesFor
        simp only [List.map_eq_nil_iff, List.filter_eq_nil_iff]
        intro e he hh
        apply hid
        simp only [List.mem_map]
        exact ⟨e, he, by simpa using hh⟩
      rw [this]; exact List.chain'_nil
  · intro h id _
    exact (noRepeat_iff_chain _).2 (h id)

theorem count_rows (es : List (Int × Bool)) (h : Alternating es) (id : Int) :
    (Inner.afterEvents es ⟨[]⟩)._enabledRows.count id
      = if lastValue id es = some true then 1 else 0 := by
  rw [Alternating_iff] at h
  induction es using List.reverseRecOn generalizing id with
  | nil => simp [Inner.afterEvents, lastValue, valuesFor]
  | append_singleton es e ih =>
    have hes : ∀ id, List.Chain' (fun a b => a ≠ b) (valuesFor id es) := by
      intro j
      have := h j
      rw [valuesFor_append, List.chain'_append] at this
      exact this.1
    have ih := ih hes
    rw [afterEvents_append]
    obtain ⟨j, v⟩ := e
    have hj := h j
    rw [valuesFor_append, List.chain'_append] at hj
    simp only [if_true] at hj
    have hlast : ∀ x ∈ (valuesFor j es).getLast?, x ≠ v := by
      intro x hx
      exact hj.2.2 x hx v (by simp)
    cases v with
    | true =>
      rw [rowToggled_on_rows, List.count_append, ih id]
      by_cases hid : j = id
      · subst hid
        have : lastValue j es ≠ some true := by
          intro hc
          exact hlast true (by simpa [lastValue] using hc) rfl
        simp [lastValue, valuesFor_append, this]
        simpa [lastValue] using this
      · simp [lastValue, valuesFor_append, hid]
        have : ¬ (id = j) := fun hc => hid hc.symm
        simp [List.count_singleton, this]
    | false =>
      rw [rowToggled_off_rows]
      by_cases hid : j = id
      · subst hid
        simp [lastValue, valuesFor_append, List.count_eq_zero]
      · have : ¬ (id = j) := fun hc => hid hc.symm
        rw [List.count_filter (by simpa using this), ih id]
        simp [lastValue, valuesFor_append, hid]

/-- C9: after a sequence of row toggle events that starts from an empty
`_enabledRows` and in which no row receives the same value twice in a row,
`_enabledRows` holds every id at most once, and holds `id` exactly when the
last event of `id` was "enabled". In any state, a "disabled" event for `j`
removes every occurrence of `j` and keeps the other entries in their order. -/
theorem enabledRows_after_toggles (events : List (Int × Bool)) (h : Alternating events)
    (id : Int) :
    (Inner.afterEvents events ⟨[]⟩).enabledRows.count id ≤ 1 ∧
    (id ∈ (Inner.afterEvents events ⟨[]⟩).enabledRows ↔ lastValue id events = some true) ∧
    (∀ (self : Inner) (j : Int),
      j ∉ (Inner.rowToggled j false self).enabledRows ∧
      (Inner.rowToggled j false self).enabledRows
        = self.enabledRows.filter (fun x => x ≠ j)) := by
  have hc := count_rows events h id
  unfold Inner.enabledRows
  refine ⟨?_, ?_, ?_⟩
  · rw [hc]
    split <;> simp
  · rw [← List.count_pos_iff, hc]
    split <;> simp_all
  · intro self j
    rw [rowToggled_off_rows]
    simp

/-- Witness for C9: rows 1 and 2 are enabled, then row 1 is disabled. -/
theorem enabledRows_after_toggles_witness :
    Alternating [(1, true), (2, true), (1, false)] ∧
    ((Inner.afterEvents [(1, true), (2, true), (1, false)] ⟨[]⟩).enabledRows.count 2 ≤ 1 ∧
     (2 ∈ (Inner.afterEvents [(1, true), (2, true), (1, false)] ⟨[]⟩).enabledRows ↔
        lastValue 2 [(1, true), (2, true), (1, false)] = some true) ∧
     (∀ (self : Inner) (j : Int),
        j ∉ (Inner.rowToggled j false self).enabledRows ∧
        (Inner.rowToggled j false self).enabledRows
          = self.enabledRows.filter (fun x => x ≠ j))) :=
  ⟨by decide, enabledRows_after_toggles [(1, true), (2, true), (1, false)] (by decide) 2⟩

theorem SetGlobalLoader_of_ne (loader : Option Loader) (w : World)
    (h : w.GlobalLoader ≠ loader) :
    SetGlobalLoader loader w =
      { (w.release w.GlobalLoader) with
        GlobalLoader := loader
        GlobalLoaderValues := loader :: w.GlobalLoaderValues } := by
  unfold SetGlobalLoader World.assignGlobalLoader
  rw [if_pos h]
  cases hg : w.GlobalLoader <;> simp [World.release, World.delete]

theorem SetGlobalLoader_of_eq (loader : Option Loader) (w : World)
    (h : w.GlobalLoader = loader) :
    SetGlobalLoader loader w =
      World.release { w with GlobalLoaderValues := loader :: w.GlobalLoaderValues } loader := by
  unfold SetGlobalLoader World.assignGlobalLoader
  rw [if_neg (not_not.mpr h)]
  simp only [h]

theorem release_alive (w : World) (owned : Option Loader) (l : Loader)
    (hl : l ∈ (w.release owned).alive) : l ∈ w.alive ∧ owned ≠ some l := by
  cases owned with
  | none => exact ⟨hl, by simp⟩
  | some o =>
    simp only [World.release, World.delete, List.mem_filter, decide_eq_true_eq] at hl
    refine ⟨hl.1, ?_⟩
    intro hc
    cases hc
    exact hl.2 rfl

theorem release_rest (w : World) (owned : Option Loader) :
    (w.release owned).files = w.files ∧ (w.release owned).failCalls = w.failCalls ∧
    (w.release owned).GlobalLoaderValues = w.GlobalLoaderValues := by
  cases owned <;> simp [World.release, World.delete]

theorem SetGlobalLoader_slot (loader : Option Loader) (w : World)
    (h : loader = none ∨ w.GlobalLoader ≠ loader) :
    (SetGlobalLoader loader w).GlobalLoader = loader := by
  by_cases heq : w.GlobalLoader = loader
  · rcases h with h | h
    · subst h
      rw [SetGlobalLoader_of_eq none w heq]
      exact heq
    · exact absurd heq h
  · rw [SetGlobalLoader_of_ne loader w heq]

theorem SetGlobalLoader_files (loader : Option Loader) (w : World) :
    (SetGlobalLoader loader w).files = w.files ∧
    (SetGlobalLoader loader w).failCalls = w.failCalls := by
  by_cases h : w.GlobalLoader = loader
  · rw [SetGlobalLoader_of_eq loader w h]
    exact ⟨(release_rest _ _).1, (release_rest _ _).2.1⟩
  · rw [SetGlobalLoader_of_ne loader w h]
    exact ⟨(release_rest _ _).1, (release_rest _ _).2.1⟩

theorem SetGlobalLoader_alive (loader : Option Loader) (w : World) (l : Loader)
    (hl : l ∈ (SetGlobalLoader loader w).alive) :
    l ∈ w.alive ∧ w.GlobalLoader ≠ some l := by
  by_cases h : w.GlobalLoader = loader
  · rw [SetGlobalLoader_of_eq loader w h] at hl
    have := release_alive _ loader l hl
    exact ⟨this.1, by rw [h]; exact this.2⟩
  · rw [SetGlobalLoader_of_ne loader w h] at hl
    exact release_alive w w.GlobalLoader l hl

theorem SetGlobalLoader_owned (loader : Option Loader) (w : World)
    (h : ∀ l ∈ w.alive, w.GlobalLoader = some l ∨ loader = some l) :
    Owned (SetGlobalLoader loader w) := by
  intro l hl
  obtain ⟨hmem, hne⟩ := SetGlobalLoader_alive loader w l hl
  rcases h l hmem with h1 | h1
  · exact absurd h1 hne
  · subst h1
    exact SetGlobalLoader_slot (some l) w (Or.inr hne)

theorem Owned_init (files : List String) : Owned (World.init files) := by
  intro l hl
  simp [World.init] at hl

theorem destroy_of_owned (this : Loader) (w : World) (hw : Owned w) (ha : this ∈ w.alive) :
    Loader.destroy this w = some (SetGlobalLoader none w) := by
  unfold Loader.destroy
  rw [if_pos (hw this ha)]

theorem destroy_owned (this : Loader) (w w1 : World) (hw : Owned w)
    (h : Loader.destroy this w = some w1) : Owned w1 := by
  unfold Loader.destroy at h
  split at h
  · rename_i hg
    cases h
    intro l hl
    obtain ⟨hmem, hne⟩ := SetGlobalLoader_alive none w l hl
    exact absurd (hw l hmem) hne
  · cases h

theorem toggledHandler_owned (id : Int) (toggled : Bool) (state : DictState) (w : World)
    (hw : Owned w) : ∃ w1, toggledHandler id toggled state w = some w1 ∧ Owned w1 := by
  unfold toggledHandler
  split
  · refine ⟨_, rfl, ?_⟩
    apply SetGlobalLoader_owned
    intro l hl
    simp only [make_unique_q, List.mem_cons] at hl
    rcases hl with hl | hl
    · right; simp [make_unique_q, hl]
    · left; exact hw l hl
  · split
    · cases hg : w.GlobalLoader with
      | none => exact ⟨w, rfl, hw⟩
      | some loader =>
        simp only
        split
        · have hd : Loader.destroy loader w = some (SetGlobalLoader none w) := by
            unfold Loader.destroy
            rw [if_pos hg]
          exact ⟨_, hd, destroy_owned loader w _ hw hd⟩
        · exact ⟨w, rfl, hw⟩
    · exact ⟨w, rfl, hw⟩

theorem MainTask_run_owned (task : MainTask) (w : World) (hw : Owned w) :
    ∃ w1, task.run w = some w1 ∧ Owned w1 := by
  unfold MainTask.run
  split
  · rename_i ha
    cases hc : task.callback with
    | destroy =>
      simp only
      have hd := destroy_of_owned task.weak w hw ha
      exact ⟨_, hd, destroy_owned task.weak w _ hw hd⟩
    | fail =>
      exact ⟨_, rfl, fun l hl => hw l hl⟩
  · exact ⟨w, rfl, hw⟩

theorem step_owned (e : Event) (w : World) (hw : Owned w) :
    step e w ≠ Except.error Fault.expectsViolated ∧
    ∀ w1, step e w = Except.ok w1 → Owned w1 := by
  cases e with
  | toggled id toggled state =>
    obtain ⟨w1, h1, h2⟩ := toggledHandler_owned id toggled state w hw
    simp only [step, h1, checked]
    refine ⟨by simp, ?_⟩
    intro w2 h
    cases h
    exact h2
  | unpack loader path =>
    simp only [step]
    split
    · refine ⟨by simp, ?_⟩
      intro w2 h
      cases h
      exact fun l hl => hw l hl
    · exact ⟨by simp, fun w2 h => by cases h⟩
  | async k unpacked removed =>
    simp only [step]
    cases hq : w.asyncQueue.get? k with
    | none => exact ⟨by simp, fun w2 h => by cases h⟩
    | some task =>
      refine ⟨by simp, ?_⟩
      intro w2 h
      cases h
      unfold AsyncTask.run QFile.remove
      split
      · split
        · exact fun l hl => hw l hl
        · exact fun l hl => hw l hl
      · exact fun l hl => hw l hl
  | main k =>
    simp only [step]
    cases hq : w.mainQueue.get? k with
    | none => exact ⟨by simp, fun w2 h => by cases h⟩
    | some task =>
      have hw1 : Owned { w with mainQueue := w.mainQueue.eraseIdx k } := fun l hl => hw l hl
      obtain ⟨w1, h1, h2⟩ := MainTask_run_owned task _ hw1
      simp only [h1, checked]
      refine ⟨by simp, ?_⟩
      intro w2 h
      cases h
      exact h2

theorem run_owned (events : List Event) (w : World) (hw : Owned w) :
    run events w ≠ Except.error Fault.expectsViolated ∧
    ∀ w1, run events w = Except.ok w1 → Owned w1 := by
  induction events generalizing w with
  | nil =>
    refine ⟨by simp [run], ?_⟩
    intro w1 h
    simp only [run] at h
    cases h
    exact hw
  | cons e es ih =>
    obtain ⟨h1, h2⟩ := step_owned e w hw
    cases hs : step e w with
    | ok w1 =>
      simp only [run, hs]
      exact ih w1 (h2 w1 hs)
    | error f =>
      simp only [run, hs]
      refine ⟨?_, fun w1 h => by cases h⟩
      intro hc
      cases hc
      exact h1 hs

theorem Reachable_owned (w : World) (hw : Reachable w) : Owned w := by
  obtain ⟨files, events, h⟩ := hw
  exact (run_owned events _ (Owned_init files)).2 w h

/-- C10: the assertion `Expects(GlobalLoader == this)` of `Loader::destroy`
holds at every call. Whatever sequence of toggle events, `unpack` calls on live
loaders, runs of the asynchronous lambdas and deliveries of the main-thread
calls happens from process start, no step ends in a violated `Expects`: every
loader on which `destroy` is invoked is the one held in the global slot. -/
theorem destroy_Expects_holds (files : List String) (events : List Event) :
    run events (World.init files) ≠ Except.error Fault.expectsViolated :=
  (run_owned events (World.init files) (Owned_init files)).1

/-- C6, as the code has it: `Loader::unpack(path)` hands one lambda to
`crl::async`. When that lambda runs (in any state `wa`) and unpacking returns
`unpacked`, it queues one main-thread call. When that call is delivered in a
reachable state `wm` in which the loader is alive: if unpacking failed,
`fail()` is invoked on the loader, no file was removed by the lambda nor by the
delivery, and the loader stays alive in the global slot; if unpacking
succeeded, `QFile(path).remove()` was called by the lambda, so that the file at
`path` is gone when that call returned `true` and the files are as they were
when it returned `false`, the loader is destroyed (the slot is emptied) and
`fail()` is not invoked. -/
theorem unpack_outcome_reported (this : Loader) (path : String) (unpacked removed : Bool)
    (w0 wa wm : World) (hm : Reachable wm) (halive : this ∈ wm.alive) :
    ∃ task call wm1,
      (Loader.unpack this path w0).asyncQueue = w0.asyncQueue ++ [task] ∧
      (task.run unpacked removed wa).mainQueue = wa.mainQueue ++ [call] ∧
      (task.run unpacked removed wa).failCalls = wa.failCalls ∧
      (task.run unpacked removed wa).alive = wa.alive ∧
      call.run wm = some wm1 ∧
      wm1.files = wm.files ∧
      (unpacked = false →
        (task.run unpacked removed wa).files = wa.files ∧
        wm1.failCalls = this :: wm.failCalls ∧
        this ∈ wm1.alive ∧ wm1.GlobalLoader = some this) ∧
      (unpacked = true →
        (removed = true → path ∉ (task.run unpacked removed wa).files) ∧
        (removed = false → (task.run unpacked removed wa).files = wa.files) ∧
        this ∉ wm1.alive ∧ wm1.GlobalLoader = none ∧
        wm1.failCalls = wm.failCalls) := by
  have hown := Reachable_owned wm hm
  cases unpacked with
  | false =>
    refine ⟨⟨this, path⟩, ⟨this, Callback.fail⟩, Loader.fail this wm, rfl, rfl, rfl, rfl, ?_, rfl,
      ?_, ?_⟩
    · simp [MainTask.run, halive]
    · intro _
      exact ⟨rfl, rfl, halive, hown this halive⟩
    · intro h
      cases h
  | true =>
    refine ⟨⟨this, path⟩, ⟨this, Callback.destroy⟩, SetGlobalLoader none wm, rfl, ?_, ?_, ?_,
      ?_, (SetGlobalLoader_files none wm).1, ?_, ?_⟩
    · cases removed <;> rfl
    · cases removed <;> rfl
    · cases removed <;> rfl
    · simp only [MainTask.run, halive, if_true]
      exact destroy_of_owned this wm hown halive
    · intro h
      cases h
    · intro _
      have hslot := SetGlobalLoader_slot none wm (Or.inl rfl)
      refine ⟨?_, ?_, ?_, hslot, (SetGlobalLoader_files none wm).2⟩
      · intro hr
        subst hr
        simp [AsyncTask.run, crl_on_main, QFile.remove]
      · intro hr
        subst hr
        rfl
      · intro hc
        exact (SetGlobalLoader_alive none wm this hc).2 (hown this halive)

/-- The state `World.loading` is reached by one toggle event; the loader it
started is alive there, unpacking succeeds and the file is removed. -/
theorem unpack_outcome_reported_witness :
    Reachable World.loading ∧ (⟨0, 1⟩ : Loader) ∈ World.loading.alive ∧
    ∃ task call wm1,
      (Loader.unpack ⟨0, 1⟩ "dict.zip" World.loading).asyncQueue
        = World.loading.asyncQueue ++ [task] ∧
      (task.run true true World.loading).mainQueue = World.loading.mainQueue ++ [call] ∧
      (task.run true true World.loading).failCalls = World.loading.failCalls ∧
      (task.run true true World.loading).alive = World.loading.alive ∧
      call.run World.loading = some wm1 ∧
      wm1.files = World.loading.files ∧
      (true = false →
        (task.run true true World.loading).files = World.loading.files ∧
        wm1.failCalls = ⟨0, 1⟩ :: World.loading.failCalls ∧
        (⟨0, 1⟩ : Loader) ∈ wm1.alive ∧ wm1.GlobalLoader = some ⟨0, 1⟩) ∧
      (true = true →
        (true = true → "dict.zip" ∉ (task.run true true World.loading).files) ∧
        (true = false → (task.run true true World.loading).files = World.loading.files) ∧
        (⟨0, 1⟩ : Loader) ∉ wm1.alive ∧ wm1.GlobalLoader = none ∧
        wm1.failCalls = World.loading.failCalls) :=
  ⟨⟨["dict.zip"], [Event.toggled 1 true (DictState.Available 5)], rfl⟩,
   by decide,
   unpack_outcome_reported ⟨0, 1⟩ "dict.zip" true true World.loading World.loading
     World.loading
     ⟨["dict.zip"], [Event.toggled 1 true (DictState.Available 5)], rfl⟩ (by decide)⟩

/-- C6 fails as stated: unpacking succeeds and the loader, alive at delivery,
is destroyed, but `QFile(path).remove()` returns `false`, its result is
discarded, and the file at `path` is still on disk. -/
theorem unpack_success_file_remains :
    "dict.zip" ∈ ((⟨⟨0, 1⟩, "dict.zip"⟩ : AsyncTask).run true false World.loading).files ∧
    ((⟨⟨0, 1⟩, "dict.zip"⟩ : AsyncTask).run true false World.loading).mainQueue
      = [⟨⟨0, 1⟩, Callback.destroy⟩] ∧
    (⟨0, 1⟩ : Loader) ∈ World.loading.alive ∧
    ((⟨⟨0, 1⟩, Callback.destroy⟩ : MainTask).run World.loading).map (fun w => w.alive)
      = some [] := by
  decide

/-- A complete run: the row of dictionary 1 is toggled on, the loader unpacks
`dict.zip` with success and is destroyed; the file is gone, the slot is empty
and `nullptr` was fired last. -/
theorem run_unpack_success :
    run [Event.toggled 1 true (DictState.Available 5), Event.unpack ⟨0, 1⟩ "dict.zip",
        Event.async 0 true true, Event.main 0] (World.init ["dict.zip", "other"])
      = Except.ok { alive := [], nextAddress := 1, GlobalLoader := none,
                    GlobalLoaderValues := [none, some ⟨0, 1⟩], files := ["other"],
                    failCalls := [], asyncQueue := [], mainQueue := [] } := by
  rfl

/-- A complete run in which unpacking succeeds and the file cannot be removed:
the loader is destroyed all the same and the file stays on disk. -/
theorem run_unpack_success_undeletable :
    run [Event.toggled 1 true (DictState.Available 5), Event.unpack ⟨0, 1⟩ "dict.zip",
        Event.async 0 true false, Event.main 0] (World.init ["dict.zip", "other"])
      = Except.ok { alive := [], nextAddress := 1, GlobalLoader := none,
                    GlobalLoaderValues := [none, some ⟨0, 1⟩], files := ["dict.zip", "other"],
                    failCalls := [], asyncQueue := [], mainQueue := [] } := by
  rfl

/-- A complete run in which unpacking fails: `fail()` is invoked on the loader,
which stays in the slot, and the file stays on disk. -/
theorem run_unpack_failure :
    run [Event.toggled 1 true (DictState.Available 5), Event.unpack ⟨0, 1⟩ "dict.zip",
        Event.async 0 false false, Event.main 0] (World.init ["dict.zip", "other"])
      = Except.ok { alive := [⟨0, 1⟩], nextAddress := 1, GlobalLoader := some ⟨0, 1⟩,
                    GlobalLoaderValues := [some ⟨0, 1⟩], files := ["dict.zip", "other"],
                    failCalls := [⟨0, 1⟩], asyncQueue := [], mainQueue := [] } := by
  rfl

end Ui

namespace Export.Output

/-- C2, as the code has it: every member function of `AbstractWriter` other
than `mainFilePath` is declared to return `Result`, and `mainFilePath` is
declared to return `QString`. -/
theorem Method_returns_Result_except_mainFilePath (m : Method) :
    (m = Method.mainFilePath ∧ m.returns = TypeName.QString) ∨
    (m ≠ Method.mainFilePath ∧ m.returns = TypeName.Result) := by
  cases m <;> simp [Method.returns]

/-- C2 fails as stated: `mainFilePath` belongs to the operation set and is
declared to return `QString`, not `Result`. -/
theorem mainFilePath_not_Result :
    Method.mainFilePath ∈ Method.all ∧
    Method.mainFilePath.returns = TypeName.QString ∧
    Method.mainFilePath.returns ≠ TypeName.Result := by
  decide

/-- C3: the five dialog member functions and the five left-channel member
functions correspond one to one; the members of each pair are declared with the
same parameter types, which are `DialogsInfo`, `DialogInfo`, `MessagesSlice`,
none and none, and with the same return type. -/
theorem leftChannel_mirrors_dialog :
    dialogLeftChannelPairs.map (fun p => (p.1.parameters, p.2.parameters))
      = [([TypeName.DialogsInfo], [TypeName.DialogsInfo]),
         ([TypeName.DialogInfo], [TypeName.DialogInfo]),
         ([TypeName.MessagesSlice], [TypeName.MessagesSlice]),
         ([], []),
         ([], [])] ∧
    dialogLeftChannelPairs.all (fun p => p.1.returns = p.2.returns) = true ∧
    (dialogLeftChannelPairs.map Prod.fst).Nodup ∧
    (dialogLeftChannelPairs.map Prod.snd).Nodup ∧
    (dialogLeftChannelPairs.map Prod.fst ++ dialogLeftChannelPairs.map Prod.snd).Nodup := by
  decide

theorem Block_rank_ge (b : Block) : 2 ≤ b.kind.rank := by
  cases b <;> simp [Block.kind, TopLevel.rank]

/-- C4: the format is one of the four pairwise distinct values `Text`, `Yaml`,
`Html`, `Json`, and for each of them `CreateWriter` returns a non-empty pointer
to a writer whose encoder is of that format. -/
theorem CreateWriter_matches_format (format : Format) :
    format ∈ [Format.Text, Format.Yaml, Format.Html, Format.Json] ∧
    [Format.Text, Format.Yaml, Format.Html, Format.Json].Nodup ∧
    (CreateWriter format).map Writer.encoder = some format := by
  refine ⟨?_, by decide, rfl⟩
  cases format <;> decide

/-- C1: in every writer state in which no dialog is open, `writeDialogEnd()` is
rejected, and in every writer state in which some section is open, `finish()`
is rejected; the rejected call leaves the writer, its output included, as it
was. The rejection depends on the state alone: it is the same whatever the
underlying stream does (`io`, `io2`). -/
theorem violations_rejected (w : Writer) (c : Call) (io io2 : Option (Cause × String))
    (h : (c = Call.writeDialogEnd ∧ OpenSection.Dialog ∉ w.openSections) ∨
         (c = Call.finish ∧ w.openSections ≠ [])) :
    w.call c io = (Outcome.rejected, w) ∧
    (w.call c io).2.output = w.output ∧
    w.call c io2 = w.call c io := by
  have hp : w.permits c = false := by
    rcases h with ⟨hc, hd⟩ | ⟨hc, hs⟩
    · subst hc
      cases hs : w.openSections with
      | nil => simp [Writer.permits, hs]
      | cons s rest =>
        have hne : s ≠ OpenSection.Dialog := by
          intro hc
          apply hd
          rw [hs, hc]
          exact List.mem_cons_self _ _
        simp [Writer.permits, hs, hne]
    · subst hc
      cases hs2 : w.openSections with
      | nil => exact absurd hs2 hs
      | cons s rest => simp [Writer.permits, hs2]
  simp [Writer.call, hp]

/-- Witness for C1: a started writer with the Dialogs section open and no
dialog open rejects `writeDialogEnd()` and `finish()`, whether the stream is
about to fail or not. -/
theorem violations_rejected_witness :
    ((Call.writeDialogEnd = Call.writeDialogEnd ∧
        OpenSection.Dialog ∉ Writer.dialogsOpen.openSections) ∨
      (Call.writeDialogEnd = Call.finish ∧ Writer.dialogsOpen.openSections ≠ [])) ∧
    (Writer.dialogsOpen.call Call.writeDialogEnd none = (Outcome.rejected, Writer.dialogsOpen) ∧
      (Writer.dialogsOpen.call Call.writeDialogEnd none).2.output = Writer.dialogsOpen.output ∧
      Writer.dialogsOpen.call Call.writeDialogEnd (some (Cause.outOfSpace, "result.json"))
        = Writer.dialogsOpen.call Call.writeDialogEnd none) ∧
    ((Call.finish = Call.writeDialogEnd ∧
        OpenSection.Dialog ∉ Writer.dialogsOpen.openSections) ∨
      (Call.finish = Call.finish ∧ Writer.dialogsOpen.openSections ≠ [])) ∧
    (Writer.dialogsOpen.call Call.finish none = (Outcome.rejected, Writer.dialogsOpen) ∧
      (Writer.dialogsOpen.call Call.finish none).2.output = Writer.dialogsOpen.output ∧
      Writer.dialogsOpen.call Call.finish (some (Cause.outOfSpace, "result.json"))
        = Writer.dialogsOpen.call Call.finish none) :=
  ⟨by decide,
   violations_rejected Writer.dialogsOpen Call.writeDialogEnd none
     (some (Cause.outOfSpace, "result.json")) (by decide),
   by decide,
   violations_rejected Writer.dialogsOpen Call.finish none
     (some (Cause.outOfSpace, "result.json")) (by decide)⟩

/-- The end-to-end scenario of the specification, for the JSON writer: the
nine calls all return `Ok`. -/
theorem scenario_returns_Ok :
    ((Writer.fresh Format.Json).callAll
        [Call.start, Call.writePersonal, Call.writeContactsList, Call.writeDialogsStart,
         Call.writeDialogStart, Call.writeDialogSlice, Call.writeDialogEnd,
         Call.writeDialogsEnd, Call.finish]).1
      = List.replicate 9 (Outcome.returned Result.Ok) ∧
    protocolCalls true [Block.contacts, Block.dialogs [1]]
      = [Call.start, Call.writePersonal, Call.writeContactsList, Call.writeDialogsStart,
         Call.writeDialogStart, Call.writeDialogSlice, Call.writeDialogEnd,
         Call.writeDialogsEnd, Call.finish] := by
  decide

/-- A second `writeContactsList`, a section out of the order of the table and
a re-entered Dialogs section are rejected. -/
theorem reentry_rejected :
    ((Writer.fresh Format.Json).callAll
        [Call.start, Call.writeContactsList, Call.writeContactsList]).1
      = [Outcome.returned Result.Ok, Outcome.returned Result.Ok, Outcome.rejected] ∧
    ((Writer.fresh Format.Json).callAll
        [Call.start, Call.writeSessionsList, Call.writeContactsList]).1
      = [Outcome.returned Result.Ok, Outcome.returned Result.Ok, Outcome.rejected] ∧
    ((Writer.fresh Format.Json).callAll
        [Call.start, Call.writeDialogsStart, Call.writeDialogsEnd, Call.writeDialogsStart]).1
      = [Outcome.returned Result.Ok, Outcome.returned Result.Ok, Outcome.returned Result.Ok,
         Outcome.rejected] := by
  decide

end Export.Output

namespace Export.Output

theorem blocksCalls_append (a b : List Block) :
    blocksCalls (a ++ b) = blocksCalls a ++ blocksCalls b := by
  induction a with
  | nil => rfl
  | cons x xs ih => simp [blocksCalls, ih]

theorem nested_append (o s c : Call) (a b : List Nat) :
    nested o s c (a ++ b) = nested o s c a ++ nested o s c b := by
  induction a with
  | nil => rfl
  | cons x xs ih => simp [nested, ih]

theorem writtenSoFar_snoc (p : Bool) (bs : List Block) (b : Block) :
    writtenSoFar p (bs ++ [b]) = writtenSoFar p bs ++ b.calls := by
  simp [writtenSoFar, blocksCalls_append, blocksCalls]

theorem ascending_snoc (l : List Nat) (a : Nat) :
    ascending (l ++ [a]) = true ↔ ascending l = true ∧ ∀ x ∈ l, x < a := by
  induction l with
  | nil => simp [ascending]
  | cons x xs ih =>
    rw [List.cons_append]
    simp only [ascending, Bool.and_eq_true, List.all_eq_true, decide_eq_true_eq]
    rw [ih]
    constructor
    · rintro ⟨h1, h2, h3⟩
      refine ⟨⟨fun y hy => h1 y (List.mem_append_left _ hy), h2⟩, ?_⟩
      intro y hy
      rcases List.mem_cons.1 hy with hy | hy
      · rw [hy]
        exact h1 a (List.mem_append_right _ (List.mem_singleton_self a))
      · exact h3 y hy
    · rintro ⟨⟨h1, h2⟩, h3⟩
      refine ⟨?_, h2, fun y hy => h3 y (List.mem_cons_of_mem _ hy)⟩
      intro y hy
      rcases List.mem_append.1 hy with hy | hy
      · exact h1 y hy
      · rw [List.mem_singleton.1 hy]
        exact h3 x (List.mem_cons_self _ _)

theorem inOrder_snoc (bs : List Block) (b : Block) (hord : inOrder bs = true)
    (hlt : ∀ b2 ∈ bs, b2.kind.rank < b.kind.rank) : inOrder (bs ++ [b]) = true := by
  unfold inOrder at hord ⊢
  rw [List.map_append, List.map_singleton, ascending_snoc]
  refine ⟨hord, ?_⟩
  intro x hx
  obtain ⟨b2, hb2, rfl⟩ := List.mem_map.1 hx
  exact hlt b2 hb2

theorem Shape_idle_snoc (w : Writer) (p : Bool) (bs : List Block) (b : Block)
    (hs : w.started = true) (hf : w.finished = false) (hr : w.reached = b.kind.rank)
    (hord : inOrder bs = true) (hlt : ∀ b2 ∈ bs, b2.kind.rank < b.kind.rank)
    (ho : w.openSections = []) (hout : w.output = writtenSoFar p bs ++ b.calls) :
    Shape w := by
  refine Shape.idle w p (bs ++ [b]) hs hf ?_ (inOrder_snoc bs b hord hlt) ?_ ho ?_
  · intro _
    have := Block_rank_ge b
    omega
  · intro b2 hb2
    rcases List.mem_append.1 hb2 with h | h
    · have := hlt b2 h
      omega
    · simp only [List.mem_singleton] at h
      rw [h, hr]
  · rw [writtenSoFar_snoc, hout]

theorem Shape_advance (w : Writer) (c : Call) (h : Shape w) (hp : w.permits c = true) :
    Shape (w.advance c) := by
  cases h with
  | fresh hs hf hr ho hout =>
    cases c <;> simp [Writer.permits, hs] at hp
    exact Shape.idle _ false [] (by simp [Writer.advance]) (by simp [Writer.advance, hf])
      (by simp) (by decide) (by simp) (by simp [Writer.advance, ho])
      (by simp [Writer.advance, hout, writtenSoFar, blocksCalls])
  | idle p bs hs hf hpr hord hle ho hout =>
    have hlt : ∀ r, w.reached < r → ∀ b ∈ bs, b.kind.rank < r := by
      intro r hr b hb
      have := hle b hb
      omega
    cases c <;> simp [Writer.permits, hs, hf, ho] at hp
    · -- writePersonal
      have hbs : bs = [] := by
        cases bs with
        | nil => rfl
        | cons b rest =>
          have h1 := hle b (List.mem_cons_self _ _)
          have h2 := Block_rank_ge b
          simp only [TopLevel.rank] at hp
          omega
      have hpf : p = false := by
        cases p with
        | false => rfl
        | true =>
          have := hpr rfl
          simp only [TopLevel.rank] at hp
          omega
      subst hbs hpf
      exact Shape.idle _ true [] (by simp [Writer.advance, hs]) (by simp [Writer.advance, hf])
        (by simp [Writer.advance, TopLevel.rank]) (by decide) (by simp)
        (by simp [Writer.advance, ho])
        (by simp [Writer.advance, hout, writtenSoFar, blocksCalls])
    · -- writeUserpicsStart
      exact Shape.userpics _ p bs 0 (by simp [Writer.advance, hs]) (by simp [Writer.advance, hf])
        (by simp [Writer.advance]) hord (hlt _ hp) (by simp [Writer.advance, ho])
        (by simp [Writer.advance, hout])
    · -- writeContactsList
      exact Shape_idle_snoc _ p bs Block.contacts (by simp [Writer.advance, hs])
        (by simp [Writer.advance, hf]) (by simp [Writer.advance, Block.kind]) hord
        (hlt _ hp) (by simp [Writer.advance, ho])
        (by simp [Writer.advance, hout, Block.calls])
    · -- writeSessionsList
      exact Shape_idle_snoc _ p bs Block.sessions (by simp [Writer.advance, hs])
        (by simp [Writer.advance, hf]) (by simp [Writer.advance, Block.kind]) hord
        (hlt _ hp) (by simp [Writer.advance, ho])
        (by simp [Writer.advance, hout, Block.calls])
    · -- writeDialogsStart
      exact Shape.dialogs _ p bs [] (by simp [Writer.advance, hs]) (by simp [Writer.advance, hf])
        (by simp [Writer.advance]) hord (hlt _ hp) (by simp [Writer.advance, ho])
        (by simp [Writer.advance, hout, nested])
    · -- writeLeftChannelsStart
      exact Shape.leftChannels _ p bs [] (by simp [Writer.advance, hs])
        (by simp [Writer.advance, hf])
        (by simp [Writer.advance]) hord (hlt _ hp) (by simp [Writer.advance, ho])
        (by simp [Writer.advance, hout, nested])
    · -- finish
      exact Shape.done _ p bs (by simp [Writer.advance, hs]) (by simp [Writer.advance]) hord
        (by simp [Writer.advance, hout, writtenSoFar, protocolCalls])
  | userpics p bs n hs hf hr hord hlt ho hout =>
    cases c <;> simp [Writer.permits, hs, hf, ho] at hp
    · -- slice
      refine Shape.userpics _ p bs (n + 1) (by simp [Writer.advance, hs])
        (by simp [Writer.advance, hf]) (by simp [Writer.advance, hr]) hord hlt
        (by simp [Writer.advance, ho]) ?_
      simp [Writer.advance, hout, List.replicate_succ']
    · -- end
      exact Shape_idle_snoc _ p bs (Block.userpics n) (by simp [Writer.advance, hs])
        (by simp [Writer.advance, hf]) (by simp [Writer.advance, Block.kind, hr]) hord
        hlt (by simp [Writer.advance, ho])
        (by simp [Writer.advance, hout, Block.calls, sliced])
  | dialogs p bs ds hs hf hr hord hlt ho hout =>
    cases c <;> simp [Writer.permits, hs, hf, ho] at hp
    · -- dialog start
      exact Shape.dialog _ p bs ds 0 (by simp [Writer.advance, hs])
        (by simp [Writer.advance, hf]) (by simp [Writer.advance, hr]) hord hlt
        (by simp [Writer.advance, ho]) (by simp [Writer.advance, hout])
    · -- dialogs end
      exact Shape_idle_snoc _ p bs (Block.dialogs ds) (by simp [Writer.advance, hs])
        (by simp [Writer.advance, hf]) (by simp [Writer.advance, Block.kind, hr]) hord
        hlt (by simp [Writer.advance, ho])
        (by simp [Writer.advance, hout, Block.calls])
  | dialog p bs ds n hs hf hr hord hlt ho hout =>
    cases c <;> simp [Writer.permits, hs, hf, ho] at hp
    · -- slice
      refine Shape.dialog _ p bs ds (n + 1) (by simp [Writer.advance, hs])
        (by simp [Writer.advance, hf]) (by simp [Writer.advance, hr]) hord hlt
        (by simp [Writer.advance, ho]) ?_
      simp [Writer.advance, hout, List.replicate_succ']
    · -- dialog end
      refine Shape.dialogs _ p bs (ds ++ [n]) (by simp [Writer.advance, hs])
        (by simp [Writer.advance, hf]) (by simp [Writer.advance, hr]) hord hlt
        (by simp [Writer.advance, ho]) ?_
      simp [Writer.advance, hout, nested_append, nested, sliced]
  | leftChannels p bs ds hs hf hr hord hlt ho hout =>
    cases c <;> simp [Writer.permits, hs, hf, ho] at hp
    · exact Shape.leftChannel _ p bs ds 0 (by simp [Writer.advance, hs])
        (by simp [Writer.advance, hf]) (by simp [Writer.advance, hr]) hord hlt
        (by simp [Writer.advance, ho]) (by simp [Writer.advance, hout])
    · exact Shape_idle_snoc _ p bs (Block.leftChannels ds) (by simp [Writer.advance, hs])
        (by simp [Writer.advance, hf]) (by simp [Writer.advance, Block.kind, hr]) hord
        hlt (by simp [Writer.advance, ho])
        (by simp [Writer.advance, hout, Block.calls])
  | leftChannel p bs ds n hs hf hr hord hlt ho hout =>
    cases c <;> simp [Writer.permits, hs, hf, ho] at hp
    · refine Shape.leftChannel _ p bs ds (n + 1) (by simp [Writer.advance, hs])
        (by simp [Writer.advance, hf]) (by simp [Writer.advance, hr]) hord hlt
        (by simp [Writer.advance, ho]) ?_
      simp [Writer.advance, hout, List.replicate_succ']
    · refine Shape.leftChannels _ p bs (ds ++ [n]) (by simp [Writer.advance, hs])
        (by simp [Writer.advance, hf]) (by simp [Writer.advance, hr]) hord hlt
        (by simp [Writer.advance, ho]) ?_
      simp [Writer.advance, hout, nested_append, nested, sliced]
  | done p bs hs hf hord hout =>
    cases c <;> simp [Writer.permits, hs, hf] at hp

theorem output_advance (w : Writer) (c : Call) : (w.advance c).output = w.output ++ [c] := by
  cases c <;> rfl

theorem Shape_callAll (w : Writer) (cs : List Call) (h : Shape w)
    (hok : (w.callAll cs).1 = List.replicate cs.length (Outcome.returned Result.Ok)) :
    Shape (w.callAll cs).2 ∧ (w.callAll cs).2.output = w.output ++ cs := by
  induction cs generalizing w with
  | nil => simp [Writer.callAll, h]
  | cons c cs ih =>
    simp only [Writer.callAll, List.length_cons, List.replicate_succ, List.cons.injEq] at hok
    obtain ⟨h1, h2⟩ := hok
    have hp : w.permits c = true := by
      by_contra hc
      simp [Writer.call, hc] at h1
    have hcall : w.call c none = (Outcome.returned Result.Ok, w.advance c) := by
      simp [Writer.call, hp]
    rw [hcall] at h2
    have hrest := ih (w.advance c) (Shape_advance w c h hp) h2
    simp only [Writer.callAll, hcall]
    refine ⟨hrest.1, ?_⟩
    rw [hrest.2, output_advance]
    simp

/-- Every call sequence that the writer accepts call by call, from a fresh
writer up to a `finish`, has the form `protocolCalls personal blocks` with the
top-level sections in the order of the operation table. -/
theorem accepted_is_protocol (format : Format) (cs : List Call)
    (hok : ((Writer.fresh format).callAll cs).1
      = List.replicate cs.length (Outcome.returned Result.Ok))
    (hfin : ((Writer.fresh format).callAll cs).2.finished = true) :
    ∃ personal blocks, inOrder blocks = true ∧ cs = protocolCalls personal blocks := by
  have hfresh : Shape (Writer.fresh format) :=
    Shape.fresh _ rfl rfl rfl rfl rfl
  obtain ⟨hshape, hout⟩ := Shape_callAll _ cs hfresh hok
  have hout2 : ((Writer.fresh format).callAll cs).2.output = cs := by
    rw [hout]
    simp [Writer.fresh]
  generalize ((Writer.fresh format).callAll cs).2 = w at hshape hfin hout2
  cases hshape with
  | done p bs hs hf hord hout3 => exact ⟨p, bs, hord, by rw [← hout2, hout3]⟩
  | fresh hs hf hr ho hout => simp [hf] at hfin
  | idle p bs hs hf hpr hord hle ho hout => simp [hf] at hfin
  | userpics p bs n hs hf hr hord hlt ho hout => simp [hf] at hfin
  | dialogs p bs ds hs hf hr hord hlt ho hout => simp [hf] at hfin
  | dialog p bs ds n hs hf hr hord hlt ho hout => simp [hf] at hfin
  | leftChannels p bs ds hs hf hr hord hlt ho hout => simp [hf] at hfin
  | leftChannel p bs ds n hs hf hr hord hlt ho hout => simp [hf] at hfin

end Export.Output
